import Mathlib

/-
  Verification of the rustflow Muskingum routing library.

  The repository ships a Python binding (src/python/rustflow/reach/__init__.py)
  over a native Rust kernel `rustflow.reach.muskingum_routing`.  The kernel's
  source is not part of the tree under verification, so the kernel components
  (parameter validator, coefficient derivation, reach router, cascade driver)
  are modelled from the specification; the Python binding is embedded from its
  source.  Flow rates and durations are modelled as exact rationals.
-/

namespace Rustflow

/-- Error taxonomy.  `invalidParameter` and `degenerateCoefficients` are the
kernel's errors from the spec; `indexError` models the Python exception raised
by `inflow[0]` on an empty list in the binding layer. -/
inductive RouteError where
  | invalidParameter
  | degenerateCoefficients
  | indexError
deriving DecidableEq

/-- Modelled from the spec: the coefficient denominator
`denom = 2K(1 - X) + time_step` of Coefficient Derivation (spec 4.2). -/
def coeffDenom (k x dt : ℚ) : ℚ := 2 * k * (1 - x) + dt

/-- Modelled from the spec: `C0 = (time_step - 2KX) / denom` (spec 4.2). -/
def c0Of (k x dt : ℚ) : ℚ := (dt - 2 * k * x) / coeffDenom k x dt

/-- Modelled from the spec: `C1 = (time_step + 2KX) / denom` (spec 4.2). -/
def c1Of (k x dt : ℚ) : ℚ := (dt + 2 * k * x) / coeffDenom k x dt

/-- Modelled from the spec: `C2 = (2K(1 - X) - time_step) / denom` (spec 4.2). -/
def c2Of (k x dt : ℚ) : ℚ := (2 * k * (1 - x) - dt) / coeffDenom k x dt

/-- Modelled from the spec: Coefficient Derivation (spec 4.2), absent from
src/ (it lives in the Rust kernel).  Pure function of (K, X, time_step);
fails with `DegenerateCoefficients` when the denominator is zero. -/
def muskingumCoefficients (k x dt : ℚ) : Except RouteError (ℚ × ℚ × ℚ) :=
  if coeffDenom k x dt = 0 then .error .degenerateCoefficients
  else .ok (c0Of k x dt, c1Of k x dt, c2Of k x dt)

/-- Modelled from the spec: the per-step recurrence of the Reach Router
(spec 4.3), scanning the inflow list while carrying the previous inflow
sample `iPrev` and the previous outflow `oPrev`. -/
def routeAux (c0 c1 c2 : ℚ) : ℚ → ℚ → List ℚ → List ℚ
  | _, _, [] => []
  | iPrev, oPrev, i :: rest =>
    let o := c0 * i + c1 * iPrev + c2 * oPrev
    o :: routeAux c0 c1 c2 i o rest

/-- Modelled from the spec: the Reach Router (spec 4.3), absent from src/.
`O[t] = C0*I[t] + C1*I[t-1] + C2*O[t-1]` with `I[-1] := I[0]` and
`O[-1] :=` the supplied initial outflow. -/
def routeReach (c0 c1 c2 : ℚ) (inflow : List ℚ) (oInit : ℚ) : List ℚ :=
  match inflow with
  | [] => []
  | i0 :: _ => routeAux c0 c1 c2 i0 oInit inflow

/-- Modelled from the spec: one (sub-)reach pass, deriving coefficients for
the given parameters and routing the series (spec 4.2 feeding 4.3). -/
def routeStage (k x dt oInit : ℚ) (inflow : List ℚ) : Except RouteError (List ℚ) :=
  match muskingumCoefficients k x dt with
  | .error e => .error e
  | .ok (c0, c1, c2) => .ok (routeReach c0 c1 c2 inflow oInit)

/-- Modelled from the spec: the stage chaining of the Cascade Driver
(spec 4.4, step 2), absent from src/.  Each stage's output becomes the next
stage's inflow; every stage uses the same supplied initial outflow (the
spec's primary reading of step 2). -/
def cascade (k x dt oInit : ℚ) : ℕ → List ℚ → Except RouteError (List ℚ)
  | 0, inflow => .ok inflow
  | s + 1, inflow =>
    match routeStage k x dt oInit inflow with
    | .error e => .error e
    | .ok out => cascade k x dt oInit s out

/-- Modelled from the spec: the rejection condition of the Parameter
Validator (spec 4.1): K <= 0, or time_step <= 0, or X outside [0, 0.5], or
sub_reaches < 1, or an empty inflow series. -/
def invalidParams (k x dt : ℚ) (subReaches len : ℕ) : Prop :=
  k ≤ 0 ∨ dt ≤ 0 ∨ x < 0 ∨ 1/2 < x ∨ subReaches < 1 ∨ len = 0

instance (k x dt : ℚ) (n len : ℕ) : Decidable (invalidParams k x dt n len) := by
  unfold invalidParams
  infer_instance

/-- Modelled from the spec: the kernel entry point `rustflow.reach.
muskingum_routing`, absent from src/.  Validates (spec 4.1), then either
delegates to a single Reach Router pass with the original K when
sub_reaches = 1 (spec 4.4 step 1) or runs the cascade with K/N per stage
(spec 4.4 step 2). -/
def kernelRoute (inflow : List ℚ) (k x dt : ℚ) (subReaches : ℕ)
    (initialOutflow : ℚ) : Except RouteError (List ℚ) :=
  if invalidParams k x dt subReaches inflow.length then .error .invalidParameter
  else if subReaches = 1 then routeStage k x dt initialOutflow inflow
  else cascade (k / (subReaches : ℚ)) x dt initialOutflow subReaches inflow

/-- A Python iterable of flow samples, as the binding receives it: its
element sequence together with whether it is already a `list` (e.g. a pandas
Series carries `isList := false`). -/
structure PyIterable where
  elems : List ℚ
  isList : Bool
deriving DecidableEq

/-- Python's `list(...)` constructor applied to an iterable: same elements,
now a list. -/
def pyListOf (it : PyIterable) : PyIterable := { elems := it.elems, isList := true }

/-- The Python binding `muskingum_routing` from
src/python/rustflow/reach/`__init__`.py: converts a non-list inflow to a
list, substitutes `inflow[0]` for an omitted initial outflow (raising
IndexError on an empty list, as Python indexing does), then calls the
kernel. -/
def muskingum_routing (inflow : PyIterable) (k x dt : ℚ) (subReaches : ℕ)
    (initialOutflow : Option ℚ) : Except RouteError (List ℚ) :=
  let infl := if inflow.isList then inflow else pyListOf inflow
  match initialOutflow with
  | some io => kernelRoute infl.elems k x dt subReaches io
  | none =>
    match infl.elems with
    | [] => .error .indexError
    | i0 :: _ => kernelRoute infl.elems k x dt subReaches i0

/-- The spec-side view of the Cascade Driver used for the refinement claim:
the N-fold chained application of the pure Reach Router, each stage routed
with the coefficients derived from the given storage constant and each
stage's output feeding the next stage. -/
def chainedRouter (kSub x dt oInit : ℚ) : ℕ → List ℚ → List ℚ
  | 0, inflow => inflow
  | s + 1, inflow =>
    chainedRouter kSub x dt oInit s
      (routeReach (c0Of kSub x dt) (c1Of kSub x dt) (c2Of kSub x dt) inflow oInit)

/-- Maximum of a list of rationals, 0 for the empty list (used only on
nonempty series). -/
def listMax : List ℚ → ℚ
  | [] => 0
  | a :: l => max a (listMax l)

/-- Peak value of a routing result, 0 on error. -/
def peakOf : Except RouteError (List ℚ) → ℚ
  | .ok l => listMax l
  | .error _ => 0

/-- Unfolding equation for `routeAux` on a cons cell. -/
lemma routeAux_cons (c0 c1 c2 ip op i : ℚ) (rest : List ℚ) :
    routeAux c0 c1 c2 ip op (i :: rest) =
      (c0 * i + c1 * ip + c2 * op) ::
        routeAux c0 c1 c2 i (c0 * i + c1 * ip + c2 * op) rest := rfl

/-- The router scan preserves the series length. -/
lemma routeAux_length (c0 c1 c2 : ℚ) :
    ∀ (l : List ℚ) (ip op : ℚ), (routeAux c0 c1 c2 ip op l).length = l.length := by
  intro l
  induction l with
  | nil => intro ip op; rfl
  | cons i rest ih =>
    intro ip op
    rw [routeAux_cons, List.length_cons, List.length_cons, ih]

/-- The Reach Router preserves the series length. -/
lemma routeReach_length (c0 c1 c2 : ℚ) (l : List ℚ) (io : ℚ) :
    (routeReach c0 c1 c2 l io).length = l.length := by
  cases l with
  | nil => rfl
  | cons i rest => exact routeAux_length c0 c1 c2 (i :: rest) i io

/-- The chained router preserves the series length. -/
lemma chainedRouter_length (k x dt io : ℚ) :
    ∀ (n : ℕ) (l : List ℚ), (chainedRouter k x dt io n l).length = l.length := by
  intro n
  induction n with
  | zero => intro l; rfl
  | succ s ih =>
    intro l
    rw [chainedRouter, ih, routeReach_length]

/-- For validated parameters the coefficient denominator is strictly
positive. -/
lemma coeffDenom_pos (k x dt : ℚ) (hk : 0 < k) (hx : x ≤ 1/2) (hdt : 0 < dt) :
    0 < coeffDenom k x dt := by
  unfold coeffDenom
  nlinarith [mul_pos hk (show (0:ℚ) < 1 - x by linarith)]

/-- With a nonzero denominator, coefficient derivation succeeds with the
three formula values. -/
lemma muskingumCoefficients_ok (k x dt : ℚ) (h : coeffDenom k x dt ≠ 0) :
    muskingumCoefficients k x dt = .ok (c0Of k x dt, c1Of k x dt, c2Of k x dt) := by
  unfold muskingumCoefficients
  rw [if_neg h]

/-- With a nonzero denominator, a stage pass succeeds and routes with the
derived coefficients. -/
lemma routeStage_ok (k x dt io : ℚ) (l : List ℚ) (h : coeffDenom k x dt ≠ 0) :
    routeStage k x dt io l =
      .ok (routeReach (c0Of k x dt) (c1Of k x dt) (c2Of k x dt) l io) := by
  unfold routeStage
  rw [muskingumCoefficients_ok k x dt h]

/-- With a nonzero denominator, the cascade equals the pure chained
router. -/
lemma cascade_eq_chained (k x dt io : ℚ) (h : coeffDenom k x dt ≠ 0) :
    ∀ (n : ℕ) (l : List ℚ), cascade k x dt io n l = .ok (chainedRouter k x dt io n l) := by
  intro n
  induction n with
  | zero => intro l; rfl
  | succ s ih =>
    intro l
    rw [cascade, routeStage_ok k x dt io l h, chainedRouter]
    exact ih _

/-- Unpacking the validator's acceptance condition. -/
lemma validParams_elim (k x dt : ℚ) (n len : ℕ) (h : ¬ invalidParams k x dt n len) :
    0 < k ∧ 0 < dt ∧ 0 ≤ x ∧ x ≤ 1/2 ∧ 1 ≤ n ∧ 1 ≤ len := by
  unfold invalidParams at h
  push_neg at h
  obtain ⟨h1, h2, h3, h4, h5, h6⟩ := h
  exact ⟨h1, h2, h3, h4, h5, Nat.one_le_iff_ne_zero.mpr h6⟩

/-- For validated parameters the per-stage storage constant K/N is
positive, hence its denominator is nonzero. -/
lemma coeffDenom_sub_ne (k x dt : ℚ) (n : ℕ) (hk : 0 < k) (hx : x ≤ 1/2)
    (hdt : 0 < dt) (hn : 1 ≤ n) : coeffDenom (k / (n : ℚ)) x dt ≠ 0 := by
  have hnq : (0:ℚ) < (n : ℚ) := by exact_mod_cast Nat.lt_of_lt_of_le Nat.zero_lt_one hn
  exact (coeffDenom_pos (k / (n : ℚ)) x dt (div_pos hk hnq) hx hdt).ne'

/-- For validated parameters the kernel succeeds and computes the chained
router with per-stage storage constant K/N. -/
lemma kernelRoute_ok (inflow : List ℚ) (k x dt io : ℚ) (n : ℕ)
    (h : ¬ invalidParams k x dt n inflow.length) :
    kernelRoute inflow k x dt n io = .ok (chainedRouter (k / (n : ℚ)) x dt io n inflow) := by
  obtain ⟨hk, hdt, hx0, hx, hn, hlen⟩ := validParams_elim k x dt n inflow.length h
  have hd : coeffDenom (k / (n : ℚ)) x dt ≠ 0 := coeffDenom_sub_ne k x dt n hk hx hdt hn
  unfold kernelRoute
  rw [if_neg h]
  by_cases h1 : n = 1
  · subst h1
    rw [if_pos rfl]
    have hk1 : (k / ((1 : ℕ) : ℚ)) = k := by norm_num
    rw [hk1] at hd ⊢
    rw [routeStage_ok k x dt io inflow hd]
    show _ = .ok (chainedRouter k x dt io 1 inflow)
    rw [chainedRouter, chainedRouter]
  · rw [if_neg h1]
    exact cascade_eq_chained (k / (n : ℚ)) x dt io hd n inflow

/-- First output sample of the router scan. -/
lemma routeAux_getD_zero (c0 c1 c2 ip op : ℚ) (l : List ℚ) (hl : l ≠ []) :
    (routeAux c0 c1 c2 ip op l).getD 0 0 = c0 * l.getD 0 0 + c1 * ip + c2 * op := by
  cases l with
  | nil => exact absurd rfl hl
  | cons i rest => rw [routeAux_cons]; rfl

/-- Later output samples of the router scan follow the recurrence
`O[t+1] = C0*I[t+1] + C1*I[t] + C2*O[t]`. -/
lemma routeAux_getD_succ (c0 c1 c2 : ℚ) :
    ∀ (l : List ℚ) (ip op : ℚ) (t : ℕ), t + 1 < l.length →
      (routeAux c0 c1 c2 ip op l).getD (t + 1) 0 =
        c0 * l.getD (t + 1) 0 + c1 * l.getD t 0 +
          c2 * (routeAux c0 c1 c2 ip op l).getD t 0 := by
  intro l
  induction l with
  | nil => intro ip op t ht; simp at ht
  | cons i rest ih =>
    intro ip op t ht
    rw [routeAux_cons]
    cases t with
    | zero =>
      have hrest : rest ≠ [] := by
        intro hr
        rw [hr] at ht
        simp at ht
      show (routeAux c0 c1 c2 i _ rest).getD 0 0 = _
      rw [routeAux_getD_zero c0 c1 c2 i _ rest hrest]
      rfl
    | succ s =>
      have hs : s + 1 < rest.length := by
        rw [List.length_cons] at ht
        omega
      show (routeAux c0 c1 c2 i _ rest).getD (s + 1) 0 = _
      rw [ih i _ s hs]
      rfl

/-- Every element of a list is bounded by `listMax`. -/
lemma le_listMax : ∀ (l : List ℚ) (a : ℚ), a ∈ l → a ≤ listMax l := by
  intro l
  induction l with
  | nil => intro a ha; simp at ha
  | cons i rest ih =>
    intro a ha
    rw [List.mem_cons] at ha
    rcases ha with rfl | ha
    · exact le_max_left _ _
    · exact le_trans (ih a ha) (le_max_right _ _)

/-- A convex-combination step with nonnegative weights summing to one stays
below any bound on its inputs, so the router scan preserves an upper
bound. -/
lemma routeAux_le_bound (c0 c1 c2 B : ℚ) (h0 : 0 ≤ c0) (h1 : 0 ≤ c1) (h2 : 0 ≤ c2)
    (hsum : c0 + c1 + c2 = 1) :
    ∀ (l : List ℚ) (ip op : ℚ), ip ≤ B → op ≤ B → (∀ a ∈ l, a ≤ B) →
      ∀ o ∈ routeAux c0 c1 c2 ip op l, o ≤ B := by
  intro l
  induction l with
  | nil => intro ip op _ _ _ o ho; simp [routeAux] at ho
  | cons i rest ih =>
    intro ip op hip hop hl o ho
    have hi : i ≤ B := hl i (List.mem_cons_self i rest)
    have hstep : c0 * i + c1 * ip + c2 * op ≤ B := by
      have e1 : c0 * i ≤ c0 * B := mul_le_mul_of_nonneg_left hi h0
      have e2 : c1 * ip ≤ c1 * B := mul_le_mul_of_nonneg_left hip h1
      have e3 : c2 * op ≤ c2 * B := mul_le_mul_of_nonneg_left hop h2
      have hB : c0 * B + c1 * B + c2 * B = B := by
        rw [← add_mul, ← add_mul, hsum, one_mul]
      linarith
    rw [routeAux_cons, List.mem_cons] at ho
    rcases ho with rfl | ho
    · exact hstep
    · exact ih i _ hi hstep (fun a ha => hl a (List.mem_cons_of_mem i ha)) o ho

/-- The Reach Router preserves an upper bound when its coefficients are
nonnegative and sum to one. -/
lemma routeReach_le_bound (c0 c1 c2 B io : ℚ) (h0 : 0 ≤ c0) (h1 : 0 ≤ c1) (h2 : 0 ≤ c2)
    (hsum : c0 + c1 + c2 = 1) (l : List ℚ) (hl : ∀ a ∈ l, a ≤ B) (hio : io ≤ B) :
    ∀ o ∈ routeReach c0 c1 c2 l io, o ≤ B := by
  cases l with
  | nil => intro o ho; simp [routeReach] at ho
  | cons i rest =>
    exact routeAux_le_bound c0 c1 c2 B h0 h1 h2 hsum (i :: rest) i io
      (hl i (List.mem_cons_self i rest)) hio hl

/-- The derived coefficients sum to one whenever the denominator is
nonzero. -/
lemma coeff_sum_eq_one (k x dt : ℚ) (hd : coeffDenom k x dt ≠ 0) :
    c0Of k x dt + c1Of k x dt + c2Of k x dt = 1 := by
  unfold c0Of c1Of c2Of
  rw [div_add_div_same, div_add_div_same]
  have hnum : dt - 2 * k * x + (dt + 2 * k * x) + (2 * k * (1 - x) - dt) =
      coeffDenom k x dt := by
    unfold coeffDenom
    ring
  rw [hnum, div_self hd]

/-- `C1` is nonnegative for validated parameters. -/
lemma c1Of_nonneg (k x dt : ℚ) (hk : 0 < k) (hx0 : 0 ≤ x) (hx : x ≤ 1/2) (hdt : 0 < dt) :
    0 ≤ c1Of k x dt := by
  unfold c1Of
  apply div_nonneg
  · nlinarith
  · exact (coeffDenom_pos k x dt hk hx hdt).le

/-- The chained router preserves an upper bound stage by stage when the
per-stage coefficients are nonnegative and sum to one. -/
lemma chainedRouter_le_bound (k x dt io B : ℚ) (h0 : 0 ≤ c0Of k x dt)
    (h1 : 0 ≤ c1Of k x dt) (h2 : 0 ≤ c2Of k x dt)
    (hsum : c0Of k x dt + c1Of k x dt + c2Of k x dt = 1) (hio : io ≤ B) :
    ∀ (n : ℕ) (l : List ℚ), (∀ a ∈ l, a ≤ B) →
      ∀ o ∈ chainedRouter k x dt io n l, o ≤ B := by
  intro n
  induction n with
  | zero => intro l hl o ho; exact hl o ho
  | succ s ih =>
    intro l hl o ho
    rw [chainedRouter] at ho
    exact ih _ (routeReach_le_bound _ _ _ B io h0 h1 h2 hsum l hl hio) o ho

/-- Claim C1: for every inflow series I of length N >= 1, coefficients
(C0, C1, C2) and initial outflow, the Reach Router returns a series O of
length N with `O[t] = C0*I[t] + C1*I[t-1] + C2*O[t-1]` for every t, where
the t = 0 step uses `I[-1] := I[0]` and `O[-1] :=` the initial outflow. -/
theorem reach_router_recurrence (c0 c1 c2 oInit : ℚ) (inflow : List ℚ)
    (h : inflow ≠ []) :
    (routeReach c0 c1 c2 inflow oInit).length = inflow.length ∧
    ∀ t < inflow.length,
      (routeReach c0 c1 c2 inflow oInit).getD t 0 =
        c0 * inflow.getD t 0
        + c1 * (if t = 0 then inflow.getD 0 0 else inflow.getD (t - 1) 0)
        + c2 * (if t = 0 then oInit
                else (routeReach c0 c1 c2 inflow oInit).getD (t - 1) 0) := by
  obtain ⟨i0, rest, rfl⟩ := List.exists_cons_of_ne_nil h
  refine ⟨routeReach_length c0 c1 c2 (i0 :: rest) oInit, ?_⟩
  intro t ht
  show (routeAux c0 c1 c2 i0 oInit (i0 :: rest)).getD t 0 = _
  cases t with
  | zero =>
    rw [if_pos rfl, if_pos rfl,
      routeAux_getD_zero c0 c1 c2 i0 oInit (i0 :: rest) (List.cons_ne_nil i0 rest)]
    rfl
  | succ s =>
    rw [if_neg (Nat.succ_ne_zero s), if_neg (Nat.succ_ne_zero s),
      routeAux_getD_succ c0 c1 c2 (i0 :: rest) i0 oInit s ht]
    rfl

theorem reach_router_recurrence_witness :
    (routeReach 1 1 1 [2, 3] 0).length = [(2:ℚ), 3].length :=
  (reach_router_recurrence 1 1 1 0 [2, 3] (by simp)).1

/-- Claim C2: for K > 0, X in [0, 0.5] and time_step > 0, Coefficient
Derivation returns exactly the three quotients of the spec's formulas over
`denom = 2K(1-X) + time_step`, as a pure function of (K, X, time_step). -/
theorem coefficient_formulas (k x dt : ℚ) (hk : 0 < k) (hx0 : 0 ≤ x)
    (hx : x ≤ 1/2) (hdt : 0 < dt) :
    muskingumCoefficients k x dt =
      .ok ((dt - 2 * k * x) / (2 * k * (1 - x) + dt),
           (dt + 2 * k * x) / (2 * k * (1 - x) + dt),
           (2 * k * (1 - x) - dt) / (2 * k * (1 - x) + dt)) := by
  rw [muskingumCoefficients_ok k x dt (coeffDenom_pos k x dt hk hx hdt).ne']
  rfl

theorem coefficient_formulas_witness :
    muskingumCoefficients 1 0 2 =
      .ok ((2 - 2 * 1 * 0) / (2 * 1 * (1 - 0) + 2),
           (2 + 2 * 1 * 0) / (2 * 1 * (1 - 0) + 2),
           (2 * 1 * (1 - 0) - 2) / (2 * 1 * (1 - 0) + 2)) :=
  coefficient_formulas 1 0 2 (by norm_num) (by norm_num) (by norm_num) (by norm_num)

/-- Claim C3: for every valid (K, X, time_step) the three derived routing
coefficients satisfy C0 + C1 + C2 = 1 exactly (mass-balance identity). -/
theorem coefficients_sum_to_one (k x dt : ℚ) (hk : 0 < k) (hx0 : 0 ≤ x)
    (hx : x ≤ 1/2) (hdt : 0 < dt) :
    c0Of k x dt + c1Of k x dt + c2Of k x dt = 1 :=
  coeff_sum_eq_one k x dt (coeffDenom_pos k x dt hk hx hdt).ne'

theorem coefficients_sum_to_one_witness :
    c0Of 4 (1/4) 1 + c1Of 4 (1/4) 1 + c2Of 4 (1/4) 1 = 1 :=
  coefficients_sum_to_one 4 (1/4) 1 (by norm_num) (by norm_num) (by norm_num)
    (by norm_num)

/-- Claim C4: for every valid input and sub_reaches = N >= 1, the Cascade
Driver equals the N-fold chained application of the Reach Router with
storage constant K/N, each stage's output feeding the next stage; for
N = 1 the result is identical to the single-stage Reach Router applied
directly with the original K. -/
theorem cascade_refines_chained_router (inflow : List ℚ) (k x dt io : ℚ)
    (n : ℕ) (h : ¬ invalidParams k x dt n inflow.length) :
    kernelRoute inflow k x dt n io =
      .ok (chainedRouter (k / (n : ℚ)) x dt io n inflow) ∧
    kernelRoute inflow k x dt 1 io =
      .ok (routeReach (c0Of k x dt) (c1Of k x dt) (c2Of k x dt) inflow io) := by
  obtain ⟨hk, hdt, hx0, hx, hn, hlen⟩ := validParams_elim k x dt n inflow.length h
  have h1 : ¬ invalidParams k x dt 1 inflow.length := by
    unfold invalidParams
    push_neg
    exact ⟨hk, hdt, hx0, hx, le_refl 1, Nat.one_le_iff_ne_zero.mp hlen⟩
  refine ⟨kernelRoute_ok inflow k x dt io n h, ?_⟩
  rw [kernelRoute_ok inflow k x dt io 1 h1]
  have hk1 : (k / ((1 : ℕ) : ℚ)) = k := by norm_num
  rw [hk1]
  show Except.ok (chainedRouter k x dt io 1 inflow) = _
  rw [chainedRouter, chainedRouter]

theorem cascade_refines_chained_router_witness :
    kernelRoute [1, 2] 1 0 2 1 1 =
      .ok (routeReach (c0Of 1 0 2) (c1Of 1 0 2) (c2Of 1 0 2) [1, 2] 1) :=
  (cascade_refines_chained_router [1, 2] 1 0 2 1 1
    (by norm_num [invalidParams])).2

/-- Claim C5: for every valid input, the outflow series returned by route
has exactly the same length as the inflow series. -/
theorem route_length_invariant (inflow : List ℚ) (k x dt io : ℚ) (n : ℕ)
    (h : ¬ invalidParams k x dt n inflow.length) :
    ∃ out, kernelRoute inflow k x dt n io = .ok out ∧
      out.length = inflow.length := by
  refine ⟨chainedRouter (k / (n : ℚ)) x dt io n inflow,
    kernelRoute_ok inflow k x dt io n h, ?_⟩
  exact chainedRouter_length (k / (n : ℚ)) x dt io n inflow

theorem route_length_invariant_witness :
    ∃ out, kernelRoute [1, 2, 3] 2 (1/4) 1 2 1 = .ok out ∧
      out.length = [(1:ℚ), 2, 3].length :=
  route_length_invariant [1, 2, 3] 2 (1/4) 1 1 2 (by norm_num [invalidParams])

/-- The kernel reports `InvalidParameter` exactly on the validator's
rejection condition. -/
lemma kernelRoute_invalid_iff (l : List ℚ) (k x dt io : ℚ) (n : ℕ) :
    kernelRoute l k x dt n io = .error .invalidParameter ↔
      invalidParams k x dt n l.length := by
  constructor
  · intro he
    by_contra h
    rw [kernelRoute_ok l k x dt io n h] at he
    exact Except.noConfusion he
  · intro h
    unfold kernelRoute
    rw [if_pos h]

/-- The binding's list conversion does not change the element sequence. -/
lemma binding_elems (pit : PyIterable) :
    (if pit.isList then pit else pyListOf pit).elems = pit.elems := by
  by_cases hb : pit.isList <;> simp [hb, pyListOf]

/-- Python's `list(...)` does not change the element sequence. -/
lemma pyListOf_elems (pit : PyIterable) : (pyListOf pit).elems = pit.elems := rfl

/-- Claim C6, counterexample: an empty inflow with `initial_outflow`
omitted fails with IndexError (from `inflow[0]` in the binding), not with
InvalidParameter, although the inflow length is 0. -/
theorem empty_default_gives_index_error :
    muskingum_routing ⟨[], true⟩ 1 (1/4) 1 1 none = .error .indexError ∧
    muskingum_routing ⟨[], true⟩ 1 (1/4) 1 1 none ≠ .error .invalidParameter := by
  constructor
  · rfl
  · intro h
    rw [show muskingum_routing ⟨[], true⟩ 1 (1/4) 1 1 none =
        .error .indexError from rfl] at h
    exact RouteError.noConfusion (Except.error.inj h)

/-- Claim C6, amended: with `initial_outflow` supplied, or with a nonempty
inflow, a call fails with InvalidParameter exactly when K <= 0, or
time_step <= 0, or X < 0 or X > 0.5, or sub_reaches < 1, or the inflow
length is 0; an empty inflow with `initial_outflow` omitted instead fails
with IndexError raised by the binding's `inflow[0]` before validation. -/
theorem invalid_parameter_iff (pit : PyIterable) (k x dt io : ℚ) (n : ℕ) :
    (muskingum_routing pit k x dt n (some io) = .error .invalidParameter ↔
      invalidParams k x dt n pit.elems.length) ∧
    (pit.elems ≠ [] →
      (muskingum_routing pit k x dt n none = .error .invalidParameter ↔
        invalidParams k x dt n pit.elems.length)) ∧
    (pit.elems = [] →
      muskingum_routing pit k x dt n none = .error .indexError) := by
  refine ⟨?_, ?_, ?_⟩
  · simp only [muskingum_routing, binding_elems]
    exact kernelRoute_invalid_iff pit.elems k x dt io n
  · intro hne
    obtain ⟨i0, rest, he⟩ := List.exists_cons_of_ne_nil hne
    simp only [muskingum_routing, binding_elems, he]
    exact kernelRoute_invalid_iff (i0 :: rest) k x dt i0 n
  · intro he
    simp only [muskingum_routing, binding_elems, he]

theorem invalid_parameter_iff_witness :
    muskingum_routing ⟨[1], true⟩ 0 0 1 1 (some 1) = .error .invalidParameter :=
  (invalid_parameter_iff ⟨[1], true⟩ 0 0 1 1 1).1.mpr
    (Or.inl (le_refl 0))

/-- Claim C7: for a nonempty inflow, calling the binding with
`initial_outflow` omitted returns the same outflow series as calling it
with `initial_outflow` explicitly set to `inflow[0]`. -/
theorem default_initial_outflow (pit : PyIterable) (k x dt : ℚ) (n : ℕ)
    (i0 : ℚ) (rest : List ℚ) (h : pit.elems = i0 :: rest) :
    muskingum_routing pit k x dt n none =
      muskingum_routing pit k x dt n (some i0) := by
  simp only [muskingum_routing, binding_elems, h]

theorem default_initial_outflow_witness :
    muskingum_routing ⟨[5, 6], true⟩ 1 0 2 1 none =
      muskingum_routing ⟨[5, 6], true⟩ 1 0 2 1 (some 5) :=
  default_initial_outflow ⟨[5, 6], true⟩ 1 0 2 1 5 [6] rfl

/-- Claim C8: for every parameter combination accepted by the validator,
the coefficient denominator `2K(1-X) + time_step` is strictly positive,
hence nonzero, so the DegenerateCoefficients branch is unreachable. -/
theorem validated_denominator_positive (k x dt : ℚ) (hk : 0 < k) (hx0 : 0 ≤ x)
    (hx : x ≤ 1/2) (hdt : 0 < dt) :
    0 < coeffDenom k x dt ∧ coeffDenom k x dt ≠ 0 ∧
    muskingumCoefficients k x dt ≠ .error .degenerateCoefficients := by
  have hp := coeffDenom_pos k x dt hk hx hdt
  refine ⟨hp, hp.ne', ?_⟩
  rw [muskingumCoefficients_ok k x dt hp.ne']
  intro h
  exact Except.noConfusion h

theorem validated_denominator_positive_witness :
    0 < coeffDenom 1 0 2 ∧ coeffDenom 1 0 2 ≠ 0 ∧
    muskingumCoefficients 1 0 2 ≠ .error .degenerateCoefficients :=
  validated_denominator_positive 1 0 2 (by norm_num) (by norm_num) (by norm_num)
    (by norm_num)

/-- Claim C9, counterexample: with K = 2, X = 0, time_step = 1, inflow
[0, 1, 0, 0] and initial outflow 0, the peak outflow with sub_reaches = 3
(namely 5832/16807) strictly exceeds the peak with sub_reaches = 1
(namely 8/25): subdivision amplified the peak. -/
theorem subdividing_can_raise_peak :
    kernelRoute [0, 1, 0, 0] 2 0 1 1 0 = .ok [0, 1/5, 8/25, 24/125] ∧
    kernelRoute [0, 1, 0, 0] 2 0 1 3 0 =
      .ok [0, 27/343, 648/2401, 5832/16807] ∧
    peakOf (kernelRoute [0, 1, 0, 0] 2 0 1 1 0) <
      peakOf (kernelRoute [0, 1, 0, 0] 2 0 1 3 0) := by
  have h1 : kernelRoute [0, 1, 0, 0] 2 0 1 1 0 = .ok [0, 1/5, 8/25, 24/125] := by
    norm_num [kernelRoute, invalidParams, routeStage, muskingumCoefficients,
      coeffDenom, c0Of, c1Of, c2Of, routeReach, routeAux]
  have h3 : kernelRoute [0, 1, 0, 0] 2 0 1 3 0 =
      .ok [0, 27/343, 648/2401, 5832/16807] := by
    norm_num [kernelRoute, invalidParams, cascade, routeStage,
      muskingumCoefficients, coeffDenom, c0Of, c1Of, c2Of, routeReach, routeAux]
  refine ⟨h1, h3, ?_⟩
  rw [h1, h3]
  norm_num [peakOf, listMax]

/-- Claim C9, amended: subdivision can raise the peak outflow above the
sub_reaches = 1 peak, but it never amplifies the outflow beyond the inflow
peak: for every valid input whose per-stage coefficients C0 and C2 (derived
from K/n) are nonnegative, every outflow value returned with sub_reaches = n
is at most the maximum of the peak inflow and the initial outflow. -/
theorem cascade_peak_bounded (inflow : List ℚ) (k x dt io : ℚ) (n : ℕ)
    (out : List ℚ) (h : ¬ invalidParams k x dt n inflow.length)
    (hc0 : 0 ≤ c0Of (k / (n : ℚ)) x dt) (hc2 : 0 ≤ c2Of (k / (n : ℚ)) x dt)
    (hout : kernelRoute inflow k x dt n io = .ok out) :
    ∀ o ∈ out, o ≤ max (listMax inflow) io := by
  obtain ⟨hk, hdt, hx0, hx, hn, hlen⟩ := validParams_elim k x dt n inflow.length h
  have hnq : (0:ℚ) < (n : ℚ) := by
    exact_mod_cast Nat.lt_of_lt_of_le Nat.zero_lt_one hn
  have hksub : 0 < k / (n : ℚ) := div_pos hk hnq
  have hd := coeffDenom_sub_ne k x dt n hk hx hdt hn
  have hc1 := c1Of_nonneg (k / (n : ℚ)) x dt hksub hx0 hx hdt
  have hsum := coeff_sum_eq_one (k / (n : ℚ)) x dt hd
  rw [kernelRoute_ok inflow k x dt io n h] at hout
  obtain rfl : chainedRouter (k / (n : ℚ)) x dt io n inflow = out :=
    Except.ok.inj hout
  exact chainedRouter_le_bound (k / (n : ℚ)) x dt io (max (listMax inflow) io)
    hc0 hc1 hc2 hsum (le_max_right _ _) n inflow
    (fun a ha => le_trans (le_listMax inflow a ha) (le_max_left _ _))

theorem cascade_peak_bounded_witness :
    (3/2 : ℚ) ≤ max (listMax [1, 2]) 1 :=
  cascade_peak_bounded [1, 2] 1 0 2 1 1 [1, 3/2]
    (by norm_num [invalidParams])
    (by norm_num [c0Of, coeffDenom])
    (by norm_num [c2Of, coeffDenom])
    (by norm_num [kernelRoute, invalidParams, routeStage, muskingumCoefficients,
      coeffDenom, c0Of, c1Of, c2Of, routeReach, routeAux])
    (3/2) (by norm_num)

/-- Claim C10: the binding converts a non-list inflow iterable to a list
before resolving the default initial outflow and calling the kernel, so its
result equals the result of calling it with `list(inflow)` and all other
arguments unchanged. -/
theorem list_conversion_transparent (pit : PyIterable) (k x dt : ℚ) (n : ℕ)
    (io : Option ℚ) :
    muskingum_routing pit k x dt n io =
      muskingum_routing (pyListOf pit) k x dt n io := by
  simp only [muskingum_routing, binding_elems, pyListOf_elems]

end Rustflow
